import Mathlib

/-!
Verification of the redaxios2 HTTP client (src/index.js, src/progress.js,
src/stream.js) against its natural-language specification.

The development shallowly embeds the JavaScript source:
* JavaScript values flowing through the config merger are modelled by the
  inductive type `JVal` (objects are insertion-ordered association lists;
  host objects such as FormData/Blob and JS `undefined` are outside the
  model, `undefined` being represented by `Option` at the use sites).
* `deepMerge` / `mergeConfig` follow src/index.js lines 161-190.
* The request pipeline (src/index.js lines 203-341) is `buildFetch` /
  `dispatch`, parameterised over the host JSON primitives (`Host`) and the
  transport outcome.
* The streaming progress layer and the two speedometers are modelled as
  pure functions of chunk-size lists and (bytes, timestamp) sample lists.
-/

/-- A JavaScript value as seen by the config merger: `null`, booleans,
numbers, strings, arrays, and plain objects (insertion-ordered field
lists).  JS object enumeration is modelled as insertion order; the
numeric-key reordering of JS engines is not modelled (no claim depends on
integer-like keys). -/
inductive JVal where
  | null
  | bool (b : Bool)
  | num (n : Int)
  | str (s : String)
  | arr (elems : List JVal)
  | obj (fields : List (String × JVal))
  deriving Repr

namespace JVal

/-- JS `typeof v == 'object'`: true for `null`, arrays and objects. -/
def typeofObject : JVal → Bool
  | .null => true
  | .arr _ => true
  | .obj _ => true
  | _ => false

/-- JS truthiness of a value. -/
def truthy : JVal → Bool
  | .null => false
  | .bool b => b
  | .num n => n != 0
  | .str s => s ≠ ""
  | .arr _ => true
  | .obj _ => true

end JVal

/-- The key/value pairs visited by a JS `for (i in v)` loop: object fields,
array elements keyed by their decimal index, the characters of a string
keyed by index, and nothing for primitives. -/
def forInEntries : JVal → List (String × JVal)
  | .obj fs => fs
  | .arr xs => xs.enum.map (fun p => (toString p.1, p.2))
  | .str s => s.data.enum.map (fun p => (toString p.1, .str (String.mk [p.2])))
  | _ => []

/-- JS `Array.prototype.concat`: an array argument contributes its
elements, anything else is appended as a single element. -/
def jsConcat (xs : List JVal) : JVal → List JVal
  | .arr ys => xs ++ ys
  | v => xs ++ [v]

/-- First value bound to key `k` in an association list. -/
def lookupF (out : List (String × JVal)) (k : String) : Option JVal :=
  (out.find? (fun p => p.1 == k)).map (fun p => p.2)

/-- JS `key in out` on the accumulated output object. -/
def keyMem (out : List (String × JVal)) (k : String) : Bool :=
  (lookupF out k).isSome

/-- JS `out[key]` read (only reached under a `key in out` guard; missing
keys default to `null`, an unreachable case). -/
def getKey (out : List (String × JVal)) (k : String) : JVal :=
  (lookupF out k).getD .null

/-- JS `out[key] = v`: replace the value in place if the key exists,
otherwise append the binding. -/
def setKey : List (String × JVal) → String → JVal → List (String × JVal)
  | [], k, v => [(k, v)]
  | (k', v') :: rest, k, v =>
    if k' = k then (k', v) :: rest else (k', v') :: setKey rest k v

/-- Executable model of JS `String.prototype.toLowerCase` (ASCII; the
keys involved here are header names). -/
def jsToLower (s : String) : String := ⟨s.data.map Char.toLower⟩

/-- The key actually used by `deepMerge` for an enumerated key `i`. -/
def foldKey (lowerCase : Bool) (i : String) : String :=
  if lowerCase then jsToLower i else i

/-- The first copying loop of `deepMerge` (src/index.js lines 180-183). -/
def copyFields (es : List (String × JVal)) (lowerCase : Bool) : List (String × JVal) :=
  es.foldl (fun out p => setKey out (foldKey lowerCase p.1) p.2) []

mutual

/-- Termination measure for `deepMerge`: a positive rank on values. -/
def rank : JVal → Nat
  | .null => 1
  | .bool _ => 1
  | .num _ => 1
  | .str s => 1 + s.length
  | .arr xs => 1 + rankList xs
  | .obj fs => 1 + rankFields fs

/-- Rank of an array's element list (each element weighted as in
`rankFields`). -/
def rankList : List JVal → Nat
  | [] => 0
  | v :: vs => (if v.typeofObject then 1 + rank v else 1) + rankList vs

/-- Rank of a field list: structured values count their own rank. -/
def rankFields : List (String × JVal) → Nat
  | [] => 0
  | p :: ps => (if p.2.typeofObject then 1 + rank p.2 else 1) + rankFields ps

end

theorem rankFields_forInEntries_lt (v : JVal) :
    rankFields (forInEntries v) < rank v := by
  cases v with
  | null => simp [forInEntries, rank, rankFields]
  | bool b => simp [forInEntries, rank, rankFields]
  | num n => simp [forInEntries, rank, rankFields]
  | str s =>
    simp only [forInEntries, rank]
    have h : ∀ l : List (Nat × Char),
        rankFields (l.map (fun p => (toString p.1, JVal.str (String.mk [p.2])))) = l.length := by
      intro l
      induction l with
      | nil => simp [rankFields]
      | cons p ps ih =>
        simp [rankFields, ih, JVal.typeofObject]
        omega
    rw [h, List.enum_length]
    show s.data.length < 1 + s.data.length
    omega
  | arr xs =>
    simp only [forInEntries, rank]
    have h : ∀ l : List (Nat × JVal),
        rankFields (l.map (fun p => (toString p.1, p.2))) = rankList (l.map (fun p => p.2)) := by
      intro l
      induction l with
      | nil => simp [rankFields, rankList]
      | cons p ps ih => simp only [List.map_cons, rankFields, rankList, ih]
    rw [h]
    have h2 : ∀ (ys : List JVal) (k : Nat), (ys.enumFrom k).map (fun p => p.2) = ys := by
      intro ys
      induction ys with
      | nil => intro k; simp
      | cons x t ih => intro k; simp [List.enumFrom, ih]
    rw [List.enum, h2]
    omega
  | obj fs =>
    simp only [forInEntries, rank]
    omega

mutual

/-- Shallow embedding of `deepMerge` (src/index.js lines 173-190): arrays
concatenate, otherwise copy `opts` then fold `overrides` in, recursing on
structured values for keys already present. -/
def deepMerge (opts overrides : JVal) (lowerCase : Bool) : JVal :=
  match opts with
  | .arr xs => .arr (jsConcat xs overrides)
  | _ => .obj (mergeEntries (copyFields (forInEntries opts) lowerCase)
      (forInEntries overrides) lowerCase)
termination_by rank overrides
decreasing_by exact rankFields_forInEntries_lt overrides

/-- The second loop of `deepMerge` (src/index.js lines 184-188), one
enumerated override entry at a time. -/
def mergeEntries (out : List (String × JVal)) (entries : List (String × JVal))
    (lowerCase : Bool) : List (String × JVal) :=
  match entries with
  | [] => out
  | (i, v) :: rest =>
    let key := foldKey lowerCase i
    let v' := if hm : keyMem out key && v.typeofObject
      then deepMerge (getKey out key) v (key == "headers") else v
    mergeEntries (setKey out key v') rest lowerCase
termination_by rankFields entries
decreasing_by
  · have hv : v.typeofObject = true := (Bool.and_eq_true _ _ |>.mp hm).2
    simp only [rankFields, hv, if_true]
    omega
  · simp only [rankFields]
    split <;> omega

end

/-- `redaxios.mergeConfig` (src/index.js lines 161-163). -/
def mergeConfig (config1 config2 : JVal) : JVal :=
  deepMerge config1 config2 false

/-- Field lookup on an object value (used to state merge properties). -/
def getField (v : JVal) (k : String) : Option JVal :=
  match v with
  | .obj fs => lookupF fs k
  | _ => none

/-! ### Lemmas about the merge loops -/

theorem lookupF_cons (a : String) (b : JVal) (l : List (String × JVal)) (k : String) :
    lookupF ((a, b) :: l) k = if a == k then some b else lookupF l k := by
  by_cases h : a == k <;> simp [lookupF, List.find?_cons, h]

theorem lookupF_setKey_self (out : List (String × JVal)) (k : String) (v : JVal) :
    lookupF (setKey out k v) k = some v := by
  induction out with
  | nil => simp [setKey, lookupF, List.find?]
  | cons p rest ih =>
    obtain ⟨k', v'⟩ := p
    by_cases h : k' = k
    · simp [setKey, h, lookupF_cons]
    · simp [setKey, h, lookupF_cons, ih]

theorem lookupF_setKey_ne (out : List (String × JVal)) (k' k : String) (v : JVal)
    (h : k' ≠ k) : lookupF (setKey out k' v) k = lookupF out k := by
  induction out with
  | nil => simp [setKey, lookupF_cons, h]
  | cons p rest ih =>
    obtain ⟨a, b⟩ := p
    by_cases ha : a = k'
    · subst ha
      simp [setKey, lookupF_cons, h]
    · simp only [setKey, if_neg ha, lookupF_cons, ih]

theorem mergeEntries_lookup_skip (k : String) :
    ∀ (es : List (String × JVal)) (out : List (String × JVal)) (lc : Bool),
    (∀ p ∈ es, foldKey lc p.1 ≠ k) →
    lookupF (mergeEntries out es lc) k = lookupF out k := by
  intro es
  induction es with
  | nil => intro out lc _; simp [mergeEntries]
  | cons p rest ih =>
    intro out lc hne
    obtain ⟨i, v⟩ := p
    rw [mergeEntries]
    rw [ih _ _ (fun q hq => hne q (List.mem_cons_of_mem _ hq))]
    exact lookupF_setKey_ne _ _ _ _ (hne (i, v) (List.mem_cons_self _ _))

theorem mergeEntries_lookup (k : String) (vb : JVal) :
    ∀ (es : List (String × JVal)) (out : List (String × JVal)) (lc : Bool),
    (es.map (fun p => foldKey lc p.1)).Nodup →
    lookupF (es.map (fun p => (foldKey lc p.1, p.2))) k = some vb →
    lookupF (mergeEntries out es lc) k =
      some (if keyMem out k && vb.typeofObject
        then deepMerge (getKey out k) vb (k == "headers") else vb) := by
  intro es
  induction es with
  | nil => intro out lc _ hfind; simp [lookupF, List.find?] at hfind
  | cons p rest ih =>
    intro out lc hnd hfind
    obtain ⟨i, v⟩ := p
    simp only [List.map_cons, List.nodup_cons] at hnd
    rw [List.map_cons, lookupF_cons] at hfind
    rw [mergeEntries]
    by_cases hik : foldKey lc i == k
    · rw [if_pos hik] at hfind
      have hk : foldKey lc i = k := by
        have := hik
        simpa using this
      have hv : v = vb := by injection hfind
      subst hv
      have hrest : ∀ q ∈ rest, foldKey lc q.1 ≠ k := by
        intro q hq hqk
        have hmem : foldKey lc q.1 ∈ rest.map (fun p => foldKey lc p.1) :=
          List.mem_map.mpr ⟨q, hq, rfl⟩
        rw [hqk, ← hk] at hmem
        exact hnd.1 hmem
      rw [mergeEntries_lookup_skip k rest _ lc hrest, hk, lookupF_setKey_self]
      simp [dite_eq_ite]
    · rw [if_neg (by simpa using hik)] at hfind
      have hik' : foldKey lc i ≠ k := by simpa using hik
      rw [ih _ lc hnd.2 hfind]
      have h1 : keyMem (setKey out (foldKey lc i)
          (if keyMem out (foldKey lc i) && v.typeofObject
            then deepMerge (getKey out (foldKey lc i)) v (foldKey lc i == "headers") else v)) k
          = keyMem out k := by
        simp [keyMem, lookupF_setKey_ne _ _ _ _ hik']
      have h2 : getKey (setKey out (foldKey lc i)
          (if keyMem out (foldKey lc i) && v.typeofObject
            then deepMerge (getKey out (foldKey lc i)) v (foldKey lc i == "headers") else v)) k
          = getKey out k := by
        simp [getKey, lookupF_setKey_ne _ _ _ _ hik']
      simp only [dite_eq_ite]
      rw [h1, h2]

theorem setKey_of_fresh (out : List (String × JVal)) (k : String) (v : JVal)
    (h : lookupF out k = none) : setKey out k v = out ++ [(k, v)] := by
  induction out with
  | nil => simp [setKey]
  | cons p rest ih =>
    obtain ⟨a, b⟩ := p
    rw [lookupF_cons] at h
    by_cases ha : a = k
    · simp [ha] at h
    · simp only [setKey, if_neg ha, List.cons_append]
      rw [ih (by simpa [ha] using h)]

theorem lookupF_append_right (l1 l2 : List (String × JVal)) (k : String)
    (h : lookupF l1 k = none) : lookupF (l1 ++ l2) k = lookupF l2 k := by
  induction l1 with
  | nil => simp
  | cons p rest ih =>
    obtain ⟨a, b⟩ := p
    rw [lookupF_cons] at h
    by_cases ha : a = k
    · simp [ha] at h
    · rw [List.cons_append, lookupF_cons, if_neg (by simpa using ha)]
      exact ih (by simpa [ha] using h)

theorem copyFields_id (fa : List (String × JVal)) (hnd : (fa.map Prod.fst).Nodup) :
    copyFields fa false = fa := by
  suffices h : ∀ (l out : List (String × JVal)), (l.map Prod.fst).Nodup →
      (∀ p ∈ l, lookupF out p.1 = none) →
      l.foldl (fun acc p => setKey acc p.1 p.2) out = out ++ l by
    simpa [copyFields, foldKey] using h fa [] hnd (by simp [lookupF, List.find?])
  intro l
  induction l with
  | nil => intro out _ _; simp
  | cons p rest ih =>
    intro out hnd hfresh
    obtain ⟨a, b⟩ := p
    simp only [List.map_cons, List.nodup_cons] at hnd
    simp only [List.foldl_cons]
    rw [setKey_of_fresh out a b (hfresh (a, b) (List.mem_cons_self _ _))]
    rw [ih (out ++ [(a, b)]) hnd.2 ?_]
    · simp
    · intro q hq
      rw [lookupF_append_right _ _ _ (hfresh q (List.mem_cons_of_mem _ hq))]
      have hqa : a ≠ q.1 := by
        intro he
        exact hnd.1 (he ▸ (List.mem_map.mpr ⟨q, hq, rfl⟩))
      have hb : (a == q.1) = false := beq_eq_false_iff_ne.mpr hqa
      simp [lookupF, List.find?, hb]

theorem deepMerge_obj (fa : List (String × JVal)) (ov : JVal) (lc : Bool) :
    deepMerge (.obj fa) ov lc =
      .obj (mergeEntries (copyFields fa lc) (forInEntries ov) lc) := by
  rw [deepMerge]
  · simp [forInEntries]
  · exact fun ys h => JVal.noConfusion h

theorem deepMerge_null_ne_null (x : JVal) (lc : Bool) :
    deepMerge x .null lc ≠ .null := by
  cases x <;> simp [deepMerge]

/-- Folded lookup used to locate the first override entry whose folded key
is `k`. -/
theorem foldKey_false (i : String) : foldKey false i = i := rfl

theorem map_foldKey_false (fb : List (String × JVal)) :
    fb.map (fun p => (foldKey false p.1, p.2)) = fb := by
  simp [foldKey]

theorem map_fst_foldKey_false (fb : List (String × JVal)) :
    fb.map (fun p => foldKey false p.1) = fb.map Prod.fst := by
  simp [foldKey]

/-- Common reduction: a `mergeConfig` of two objects, looked up at a key
present once in the overrides. -/
theorem mergeConfig_lookup (fa fb : List (String × JVal)) (k : String) (vb : JVal)
    (hA : (fa.map Prod.fst).Nodup) (hB : (fb.map Prod.fst).Nodup)
    (hkb : lookupF fb k = some vb) :
    getField (mergeConfig (.obj fa) (.obj fb)) k =
      some (if keyMem fa k && vb.typeofObject
        then deepMerge (getKey fa k) vb (k == "headers") else vb) := by
  rw [mergeConfig, deepMerge_obj]
  show lookupF (mergeEntries (copyFields fa false) (forInEntries (.obj fb)) false) k = _
  rw [show forInEntries (.obj fb) = fb from rfl, copyFields_id fa hA]
  exact mergeEntries_lookup k vb fb fa false
    (by rw [map_fst_foldKey_false]; exact hB)
    (by rw [map_foldKey_false]; exact hkb)

/-- C5, first half as stated: the claim asserts `merge(A,B)[k] =
merge(A[k], B[k])` for every shared structured key `k`, and that incoming
arrays always replace.  Both fail: for `k = "headers"` the recursion folds
key case (the outer `mergeConfig` does not), and an incoming array for an
existing key is concatenated, not substituted. -/
theorem c5_counterexample :
    getField (mergeConfig (.obj [("headers", .obj [("X-Foo", .str "1")])])
        (.obj [("headers", .obj [("x-foo", .str "2")])])) "headers"
      = some (.obj [("x-foo", .str "2")])
    ∧ mergeConfig (.obj [("X-Foo", .str "1")]) (.obj [("x-foo", .str "2")])
      = .obj [("X-Foo", .str "1"), ("x-foo", .str "2")]
    ∧ (JVal.obj [("x-foo", .str "2")]) ≠ .obj [("X-Foo", .str "1"), ("x-foo", .str "2")]
    ∧ getField (mergeConfig (.obj [("a", .arr [.num 1])]) (.obj [("a", .arr [.num 2])])) "a"
      = some (.arr [.num 1, .num 2])
    ∧ (JVal.arr [.num 1, .num 2]) ≠ .arr [.num 2] := by
  refine ⟨?_, ?_, by simp, ?_, by simp⟩
  · simp [mergeConfig, deepMerge, mergeEntries, copyFields, forInEntries, setKey, lookupF,
      keyMem, getKey, foldKey, jsConcat, getField, List.find?, JVal.typeofObject,
      show jsToLower "X-Foo" = "x-foo" from by decide,
      show jsToLower "x-foo" = "x-foo" from by decide]
  · simp [mergeConfig, deepMerge, mergeEntries, copyFields, forInEntries, setKey, lookupF,
      keyMem, getKey, foldKey, jsConcat, getField, List.find?, JVal.typeofObject]
  · simp [mergeConfig, deepMerge, mergeEntries, copyFields, forInEntries, setKey, lookupF,
      keyMem, getKey, foldKey, jsConcat, getField, List.find?, JVal.typeofObject]

/-- C5, amended: for a key shared by two config objects, (a) when both
values are nested objects and the key is not `"headers"` the merge recurses
(`merge(A,B)[k] = merge(A[k],B[k])`); (b) an incoming scalar replaces the
value outright; (c) an incoming array for a key whose existing value is an
array is concatenated onto it (arrays are merged, not substituted). -/
theorem c5_amended :
    (∀ (fa fb ga gb : List (String × JVal)) (k : String),
      (fa.map Prod.fst).Nodup → (fb.map Prod.fst).Nodup → k ≠ "headers" →
      lookupF fa k = some (.obj ga) → lookupF fb k = some (.obj gb) →
      getField (mergeConfig (.obj fa) (.obj fb)) k
        = some (mergeConfig (.obj ga) (.obj gb)))
    ∧ (∀ (fa fb : List (String × JVal)) (k : String) (vb : JVal),
      (fa.map Prod.fst).Nodup → (fb.map Prod.fst).Nodup →
      vb.typeofObject = false → lookupF fb k = some vb →
      getField (mergeConfig (.obj fa) (.obj fb)) k = some vb)
    ∧ (∀ (fa fb : List (String × JVal)) (k : String) (xs ys : List JVal),
      (fa.map Prod.fst).Nodup → (fb.map Prod.fst).Nodup →
      lookupF fa k = some (.arr xs) → lookupF fb k = some (.arr ys) →
      getField (mergeConfig (.obj fa) (.obj fb)) k = some (.arr (xs ++ ys))) := by
  refine ⟨?_, ?_, ?_⟩
  · intro fa fb ga gb k hA hB hk hka hkb
    rw [mergeConfig_lookup fa fb k _ hA hB hkb]
    have hmem : keyMem fa k = true := by simp [keyMem, hka]
    have hget : getKey fa k = .obj ga := by simp [getKey, hka]
    have hkh : (k == "headers") = false := beq_eq_false_iff_ne.mpr hk
    simp [hmem, hget, hkh, JVal.typeofObject, mergeConfig]
  · intro fa fb k vb hA hB hvb hkb
    rw [mergeConfig_lookup fa fb k _ hA hB hkb]
    simp [hvb]
  · intro fa fb k xs ys hA hB hka hkb
    rw [mergeConfig_lookup fa fb k _ hA hB hkb]
    have hmem : keyMem fa k = true := by simp [keyMem, hka]
    have hget : getKey fa k = .arr xs := by simp [getKey, hka]
    simp [hmem, hget, JVal.typeofObject, deepMerge, jsConcat]

/-- Witness for `c5_amended` at concrete configurations. -/
theorem c5_amended_witness :
    getField (mergeConfig (.obj [("x", .obj [("p", .num 1)])])
        (.obj [("x", .obj [("q", .num 2)])])) "x"
      = some (mergeConfig (.obj [("p", .num 1)]) (.obj [("q", .num 2)]))
    ∧ getField (mergeConfig (.obj [("y", .num 1)]) (.obj [("y", .str "s")])) "y"
      = some (.str "s")
    ∧ getField (mergeConfig (.obj [("z", .arr [.num 1])]) (.obj [("z", .arr [.num 2])])) "z"
      = some (.arr ([JVal.num 1] ++ [JVal.num 2])) :=
  ⟨c5_amended.1 [("x", .obj [("p", .num 1)])] [("x", .obj [("q", .num 2)])]
      [("p", .num 1)] [("q", .num 2)] "x" (by simp) (by simp) (by decide) rfl rfl,
    c5_amended.2.1 [("y", .num 1)] [("y", .str "s")] "y" (.str "s")
      (by simp) (by simp) rfl rfl,
    c5_amended.2.2 [("z", .arr [.num 1])] [("z", .arr [.num 2])] "z"
      [JVal.num 1] [JVal.num 2] (by simp) (by simp) rfl rfl⟩

/-- C6, first half as stated: the claim asserts every recursive merge of a
shared structured key receives the caller's `foldCase` unchanged (except
`"headers"`).  In the code the recursive call always receives
`key == 'headers'`, so with `foldCase = true` and key `"a"` the nested keys
keep their case, whereas a propagated flag would lower-case them. -/
theorem c6_counterexample :
    getField (deepMerge (.obj [("a", .obj [("B", .num 1)])])
        (.obj [("a", .obj [("B", .num 2)])]) true) "a"
      = some (.obj [("B", .num 2)])
    ∧ deepMerge (.obj [("B", .num 1)]) (.obj [("B", .num 2)]) true
      = .obj [("b", .num 2)]
    ∧ (JVal.obj [("B", .num 2)]) ≠ .obj [("b", .num 2)] := by
  refine ⟨?_, ?_, by simp⟩
  · simp [deepMerge, mergeEntries, copyFields, forInEntries, setKey, lookupF,
      keyMem, getKey, foldKey, jsConcat, getField, List.find?, JVal.typeofObject,
      show jsToLower "a" = "a" from by decide]
  · simp [deepMerge, mergeEntries, copyFields, forInEntries, setKey, lookupF,
      keyMem, getKey, foldKey, jsConcat, getField, List.find?, JVal.typeofObject,
      show jsToLower "B" = "b" from by decide]

/-- C6, amended: each recursive merge of a shared structured key receives
`key == "headers"` as its fold flag regardless of the caller's flag, so
folding happens exactly one level below a `"headers"` key; consequently
header maps collapse case-insensitively with last writer wins. -/
theorem c6_amended :
    (∀ (fa fb : List (String × JVal)) (lc : Bool) (k : String) (va vb : JVal),
      ((fb.map (fun p => foldKey lc p.1)).Nodup) →
      lookupF (fb.map (fun p => (foldKey lc p.1, p.2))) k = some vb →
      vb.typeofObject = true →
      lookupF (copyFields fa lc) k = some va →
      getField (deepMerge (.obj fa) (.obj fb) lc) k
        = some (deepMerge va vb (k == "headers")))
    ∧ getField (mergeConfig (.obj [("headers", .obj [("X-Foo", .str "1")])])
        (.obj [("headers", .obj [("x-foo", .str "2")])])) "headers"
      = some (.obj [("x-foo", .str "2")]) := by
  constructor
  · intro fa fb lc k va vb hB hkb hvb hka
    rw [deepMerge_obj]
    show lookupF (mergeEntries (copyFields fa lc) (forInEntries (.obj fb)) lc) k = _
    rw [show forInEntries (.obj fb) = fb from rfl]
    rw [mergeEntries_lookup k vb fb (copyFields fa lc) lc hB hkb]
    have hmem : keyMem (copyFields fa lc) k = true := by simp [keyMem, hka]
    have hget : getKey (copyFields fa lc) k = va := by simp [getKey, hka]
    simp [hmem, hget, hvb]
  · simp [mergeConfig, deepMerge, mergeEntries, copyFields, forInEntries, setKey, lookupF,
      keyMem, getKey, foldKey, jsConcat, getField, List.find?, JVal.typeofObject,
      show jsToLower "X-Foo" = "x-foo" from by decide,
      show jsToLower "x-foo" = "x-foo" from by decide]

/-- Witness for `c6_amended`: a non-headers key under `foldCase = true`
whose nested keys keep their case. -/
theorem c6_amended_witness :
    getField (deepMerge (.obj [("a", .obj [("B", .num 1)])])
        (.obj [("a", .obj [("C", .num 2)])]) true) "a"
      = some (deepMerge (.obj [("B", .num 1)]) (.obj [("C", .num 2)]) ("a" == "headers")) :=
  c6_amended.1 [("a", .obj [("B", .num 1)])] [("a", .obj [("C", .num 2)])] true "a"
    (.obj [("B", .num 1)]) (.obj [("C", .num 2)])
    (by simp) (by simp [foldKey, lookupF, List.find?, show jsToLower "a" = "a" from by decide]) rfl
    (by rw [show copyFields [("a", JVal.obj [("B", JVal.num 1)])] true
          = [("a", JVal.obj [("B", JVal.num 1)])] from by
        simp [copyFields, foldKey, setKey, show jsToLower "a" = "a" from by decide]]; rfl)

/-- C10: an override value of `null` for a key present in the base never
leaves `null` in the merged result: `typeof null == 'object'` sends the
merge into the recursive branch, which rebuilds a structured value from
the existing one. -/
theorem c10_null_override (fa fb : List (String × JVal)) (k : String) (va : JVal)
    (hA : (fa.map Prod.fst).Nodup) (hB : (fb.map Prod.fst).Nodup)
    (hka : lookupF fa k = some va) (hkb : lookupF fb k = some (.null)) :
    getField (mergeConfig (.obj fa) (.obj fb)) k ≠ some (.null)
    ∧ (getField (mergeConfig (.obj fa) (.obj fb)) k).isSome = true := by
  rw [mergeConfig_lookup fa fb k _ hA hB hkb]
  have hmem : keyMem fa k = true := by simp [keyMem, hka]
  have hget : getKey fa k = va := by simp [getKey, hka]
  simp only [hmem, hget, JVal.typeofObject, Bool.and_true, if_true]
  exact ⟨by simpa using deepMerge_null_ne_null va (k == "headers"), by simp⟩

/-- Witness for `c10_null_override`: `merge({a: 5}, {a: null})` keeps a
non-null (empty object) value at `a`. -/
theorem c10_null_override_witness :
    getField (mergeConfig (.obj [("a", .num 5)]) (.obj [("a", .null)])) "a" ≠ some (.null)
    ∧ (getField (mergeConfig (.obj [("a", .num 5)]) (.obj [("a", .null)])) "a").isSome
      = true :=
  c10_null_override [("a", .num 5)] [("a", .null)] "a" (.num 5)
    (by simp) (by simp) rfl rfl

/-! ### Request pipeline (src/index.js lines 203-341)

The transport, the JSON host primitives (`JSON.stringify` / `JSON.parse`)
and the response body are parameters of the model.  Not modelled: URL
resolution and query parameters, the XSRF cookie extraction (the cookie
store is treated as empty, so the silently-caught branch never adds a
header), the case-insensitive header proxy view, host objects
(FormData/Blob) as bodies, and the body-stream object exposed for
`responseType: 'stream'` (its `data` is left `none`).  None of the claims
below depend on these. -/

/-- Host JSON primitives: `JSON.stringify` and `JSON.parse` (`none` models
a parse exception). -/
structure Host where
  stringify : JVal → String
  parse : String → Option JVal

/-- Executable model of JS `String.prototype.toUpperCase` (ASCII method
names). -/
def jsToUpper (s : String) : String := ⟨s.data.map Char.toUpper⟩

/-- JS truthiness of a possibly-undefined value. -/
def jTruthyOpt : Option JVal → Bool
  | none => false
  | some v => v.truthy

/-- JS `a || b` on possibly-undefined strings. -/
def orStr (a b : Option String) : Option String :=
  match a with
  | some s => if s = "" then b else some s
  | none => b

/-- The per-call options after `deepMerge(defaults, config)` (the claims
quantify over the effective configuration directly).  Progress callbacks
are modelled by their presence. -/
structure OptionsModel where
  method : Option String := none
  data : Option JVal := none
  headers : List (String × JVal) := []
  auth : Option String := none
  responseType : Option String := none
  validateStatus : Option (Nat → Bool) := none
  transformRequest : List (Option JVal → List (String × JVal) → Option JVal) := []
  withCredentials : Bool := false
  onUploadProgress : Bool := false
  onDownloadProgress : Bool := false

/-- The options record handed to the transport (src/index.js lines
251-257). -/
structure FetchOptions where
  method : String
  body : Option JVal
  headers : JVal
  credentials : Option String

/-- Everything computed before the transport call. -/
structure FetchPrep where
  data : Option JVal
  customHeaders : List (String × JVal)
  method : String
  hasBody : Bool
  fetchOptions : FetchOptions
  uploadStreaming : Bool

/-- Body/header/method preparation (src/index.js lines 214-269): body
fallback to `options.data`, the transform pipeline, the auth header, JSON
encoding of plain objects, effective method, `hasBody`, and the base fetch
options.  The upload-progress path is entered only when `hasBody` holds
and a callback is present (stream construction is assumed to succeed). -/
def buildFetch (host : Host) (opts : OptionsModel) (dataArg : Option JVal)
    (_method : Option String) : FetchPrep :=
  let data0 := if jTruthyOpt dataArg then dataArg else opts.data
  let data1 := opts.transformRequest.foldl
    (fun d f => let r := f d opts.headers; if jTruthyOpt r then r else d) data0
  let customHeaders0 : List (String × JVal) :=
    match opts.auth with
    | some s => if s ≠ "" then [("authorization", .str s)] else []
    | none => []
  let stringifies := match data1 with
    | some v => v.truthy && v.typeofObject
    | none => false
  let data2 := if stringifies
    then (data1.map (fun v => JVal.str (host.stringify v))) else data1
  let customHeaders := if stringifies
    then setKey customHeaders0 "content-type" (.str "application/json")
    else customHeaders0
  let method := jsToUpper ((orStr _method (orStr opts.method (some "get"))).getD "get")
  let hasBody := jTruthyOpt data2 && !(method == "GET") && !(method == "HEAD")
  { data := data2
    customHeaders := customHeaders
    method := method
    hasBody := hasBody
    fetchOptions :=
      { method := method
        body := data2
        headers := deepMerge (.obj opts.headers) (.obj customHeaders) true
        credentials := if opts.withCredentials then some "include" else none }
    uploadStreaming := hasBody && opts.onUploadProgress }

/-- A transport response (the fetch-like object): status, `ok`, status
text, headers, and the byte payload read back as text by the decode
methods. -/
structure FetchResponse where
  status : Nat
  ok : Bool
  statusText : String
  headers : List (String × String)
  bodyText : String

/-- The assembled axios-style response (enumerable non-function fields
copied from the raw response, plus the decoded `data`). -/
structure ResponseModel where
  status : Nat
  statusText : String
  ok : Bool
  headers : List (String × String)
  data : Option JVal

/-- A JS error value with the fields redaxios reads or writes. -/
structure ErrObj where
  name : String := "Error"
  message : String
  code : Option String := none
  response : Option ResponseModel := none
  config : Option OptionsModel := none
  isAxiosError : Bool := false

/-- A transport call either resolves or rejects. -/
inductive FetchOutcome where
  | resolved (res : FetchResponse)
  | rejected (e : ErrObj)

/-- Final outcome of a `redaxios` call. -/
inductive RequestOutcome where
  | resolved (r : ResponseModel)
  | rejected (e : ErrObj)

/-- `true` iff the call resolved. -/
def RequestOutcome.isResolvedB : RequestOutcome → Bool
  | .resolved _ => true
  | .rejected _ => false

/-- The representation-specific decode (src/index.js line 299):
`res[options.responseType || 'text']()`.  `"text"` yields the body text,
`"json"` runs the host parse (`none` models the rejected promise swallowed
by `.catch(Object)`).  Other representation selectors decode to host
objects (Blob/ArrayBuffer/FormData) outside this model and are mapped to
`none`; the theorems below never instantiate them. -/
def decodedData (host : Host) (rt : Option String) (bodyText : String) : Option JVal :=
  match rt.getD "text" with
  | "text" => some (.str bodyText)
  | "json" => host.parse bodyText
  | _ => none

/-- `response.data` after the decode plus the conditional JSON re-parse
(src/index.js lines 300-307): when the configured representation is not
exactly `'text'` and the decoded value is a string, a successful
`JSON.parse` replaces it. -/
def finalData (host : Host) (rt : Option String) (bodyText : String) : Option JVal :=
  match decodedData host rt bodyText with
  | none => none
  | some d =>
    if rt ≠ some "text" then
      match d with
      | .str s =>
        match host.parse s with
        | some j => some j
        | none => some (.str s)
      | _ => some d
    else some d

/-- The response object before `data` is decoded: enumerable non-function
fields copied from the raw response (src/index.js lines 278-280). -/
def assembleBase (res : FetchResponse) : ResponseModel :=
  { status := res.status
    statusText := res.statusText
    ok := res.ok
    headers := res.headers
    data := none }

/-- The fully assembled response for a non-stream representation. -/
def assembledResponse (host : Host) (opts : OptionsModel) (res : FetchResponse) :
    ResponseModel :=
  { assembleBase res with data := finalData host opts.responseType res.bodyText }

/-- Status classification (src/index.js line 310): the caller's
`validateStatus` when supplied, else the transport's `ok` flag. -/
def okOf (opts : OptionsModel) (res : FetchResponse) : Bool :=
  match opts.validateStatus with
  | some f => f res.status
  | none => res.ok

/-- The HTTP-failure error (src/index.js lines 314-318). -/
def httpError (host : Host) (opts : OptionsModel) (res : FetchResponse) : ErrObj :=
  { name := "Error"
    message := "Request failed with status code " ++ toString res.status
    code := none
    response := some (assembledResponse host opts res)
    config := some opts
    isAxiosError := true }

/-- The canonical cancellation error built by the catch handler
(src/index.js lines 325-327). -/
def cancelError : ErrObj :=
  { name := "AbortError"
    message := "canceled"
    code := none
    response := none
    config := none
    isAxiosError := false }

/-- The catch handler (src/index.js lines 322-340): abort-like rejections
are replaced by the canonical cancellation error; every other rejection
(the network-error branch and the fall-through are identical) is re-thrown
unchanged. -/
def catchMap (e : ErrObj) : ErrObj :=
  if e.name == "AbortError" || e.code == some "ERR_CANCELED" then cancelError else e

/-- `redaxios.isCancel` (src/index.js lines 139-141); an `ErrObj` is
always truthy. -/
def isCancelE (e : ErrObj) : Bool :=
  e.name == "AbortError" || e.code == some "ERR_CANCELED" || e.message == "canceled"

/-- `redaxios.isAxiosError` (src/index.js lines 149-151) on error
values. -/
def isAxiosErrorE (e : ErrObj) : Bool :=
  e.isAxiosError

/-- The request orchestrator from the transport call onward (src/index.js
lines 271-340), for a given prepared request and transport outcome:
response-field copying, the early `'stream'` return, body decoding, status
classification, and the catch handler over the whole chain. -/
def dispatch (host : Host) (opts : OptionsModel) (dataArg : Option JVal)
    (_method : Option String) (transport : FetchOutcome) : RequestOutcome :=
  let _prep := buildFetch host opts dataArg _method
  let inner : RequestOutcome :=
    match transport with
    | .rejected e => .rejected e
    | .resolved res =>
      if opts.responseType = some "stream" then
        .resolved (assembleBase res)
      else
        let response := assembledResponse host opts res
        if okOf opts res then .resolved response
        else .rejected (httpError host opts res)
  match inner with
  | .resolved r => .resolved r
  | .rejected e => .rejected (catchMap e)

/-- A concrete host for witnesses: a stringifier and a parser that always
fails. -/
def sampleHost : Host :=
  { stringify := fun _ => "null", parse := fun _ => none }

/-- A host whose parser recognises exactly one JSON document (used to
exercise the re-parse step on a body that `JSON.parse` accepts). -/
def parseHost : Host :=
  { stringify := fun _ => ""
    parse := fun s =>
      if s = "\x7b\"hello\":\"world\"\x7d" then some (.obj [("hello", .str "world")])
      else none }

/-- C1, as stated: the claim says the options passed to the transport
carry no body for GET/HEAD.  In the code `baseFetchOptions.body = data`
unconditionally, so a GET request with truthy data does carry one
(`hasBody` only gates the upload-progress streaming path). -/
theorem c1_counterexample :
    (buildFetch sampleHost { data := some (.str "x") } none (some "get")).method = "GET"
    ∧ (buildFetch sampleHost { data := some (.str "x") } none (some "get")).fetchOptions.body
      = some (.str "x")
    ∧ some (JVal.str "x") ≠ (none : Option JVal) :=
  ⟨by decide, rfl, by simp⟩

/-- C1, amended: the body attached to the transport options always equals
the resolved data, independently of the effective method; the
GET/HEAD-excluding `hasBody` flag only gates the upload-progress streaming
wrapper. -/
theorem c1_amended (host : Host) (opts : OptionsModel) (dataArg : Option JVal)
    (m m' : Option String) :
    (buildFetch host opts dataArg m).fetchOptions.body = (buildFetch host opts dataArg m).data
    ∧ (buildFetch host opts dataArg m).fetchOptions.body
      = (buildFetch host opts dataArg m').fetchOptions.body
    ∧ (buildFetch host opts dataArg m).uploadStreaming
      = ((buildFetch host opts dataArg m).hasBody && opts.onUploadProgress) :=
  ⟨rfl, rfl, rfl⟩

/-- C2, as stated: the claim says every response failing validation is
rejected.  With `responseType: 'stream'` the orchestrator returns before
the classification step, so a failing status still resolves. -/
theorem c2_counterexample :
    okOf { responseType := some "stream" }
      { status := 500, ok := false, statusText := "Server Error", headers := [],
        bodyText := "" } = false
    ∧ (dispatch sampleHost { responseType := some "stream" } none none
        (.resolved { status := 500, ok := false, statusText := "Server Error",
                     headers := [], bodyText := "" })).isResolvedB = true :=
  ⟨rfl, rfl⟩

/-- C2, amended: for every non-stream representation, a response failing
validation (caller's `validateStatus`, else the transport's `ok`) rejects
with an `Error` whose message is `"Request failed with status code N"`,
carrying the assembled response, the effective configuration, and
`isAxiosError := true`; a response passing validation resolves with the
assembled response. -/
theorem c2_amended (host : Host) (opts : OptionsModel) (dataArg : Option JVal)
    (m : Option String) (res : FetchResponse)
    (hstream : opts.responseType ≠ some "stream") :
    (okOf opts res = false →
      dispatch host opts dataArg m (.resolved res) = .rejected (httpError host opts res))
    ∧ (okOf opts res = true →
      dispatch host opts dataArg m (.resolved res)
        = .resolved (assembledResponse host opts res))
    ∧ (httpError host opts res).message
      = "Request failed with status code " ++ toString res.status
    ∧ (httpError host opts res).response = some (assembledResponse host opts res)
    ∧ (httpError host opts res).config = some opts
    ∧ (httpError host opts res).isAxiosError = true := by
  refine ⟨?_, ?_, rfl, rfl, rfl, rfl⟩
  · intro hok
    simp [dispatch, hstream, hok, catchMap, httpError,
      show ("Error" == "AbortError") = false from by decide]
  · intro hok
    simp [dispatch, hstream, hok]

/-- Witness for `c2_amended`: a 404 against a `validateStatus` accepting
only statuses below 400 rejects with the documented error. -/
theorem c2_amended_witness :
    (({ validateStatus := some (fun s => decide (s < 400)) } : OptionsModel).responseType
        ≠ some "stream")
    ∧ okOf { validateStatus := some (fun s => decide (s < 400)) }
        { status := 404, ok := false, statusText := "Not Found", headers := [],
          bodyText := "nf" } = false
    ∧ dispatch sampleHost { validateStatus := some (fun s => decide (s < 400)) } none none
        (.resolved { status := 404, ok := false, statusText := "Not Found", headers := [],
                     bodyText := "nf" })
      = .rejected (httpError sampleHost { validateStatus := some (fun s => decide (s < 400)) }
          { status := 404, ok := false, statusText := "Not Found", headers := [],
            bodyText := "nf" }) :=
  ⟨by simp, rfl,
    (c2_amended sampleHost { validateStatus := some (fun s => decide (s < 400)) } none none
      { status := 404, ok := false, statusText := "Not Found", headers := [],
        bodyText := "nf" } (by simp)).1 rfl⟩

/-- C3: a transport rejection recognizable as an abort (by name or code)
is replaced by the canonical cancellation error: fixed name and message
regardless of the original message, no `response`, and accepted by the
cancellation predicate. -/
theorem c3_cancel_normalization (host : Host) (opts : OptionsModel)
    (dataArg : Option JVal) (m : Option String) (e : ErrObj)
    (h : e.name = "AbortError" ∨ e.code = some "ERR_CANCELED") :
    dispatch host opts dataArg m (.rejected e) = .rejected cancelError
    ∧ cancelError.name = "AbortError"
    ∧ cancelError.message = "canceled"
    ∧ cancelError.response = none
    ∧ isCancelE cancelError = true := by
  refine ⟨?_, rfl, rfl, rfl, rfl⟩
  have hc : (e.name == "AbortError" || e.code == some "ERR_CANCELED") = true := by
    rcases h with h | h <;> simp [h]
  simp [dispatch, catchMap, hc]

/-- Witness for `c3_cancel_normalization`: an abort whose message is not
the canonical phrase still rejects with the canonical error. -/
theorem c3_witness :
    (({ name := "AbortError", message := "The user aborted a request." } : ErrObj).name
        = "AbortError"
      ∨ ({ name := "AbortError", message := "The user aborted a request." } : ErrObj).code
        = some "ERR_CANCELED")
    ∧ dispatch sampleHost {} none none
        (.rejected { name := "AbortError", message := "The user aborted a request." })
      = .rejected cancelError :=
  ⟨Or.inl rfl,
    (c3_cancel_normalization sampleHost {} none none
      { name := "AbortError", message := "The user aborted a request." } (Or.inl rfl)).1⟩

/-- C4: the claim (and the repository's own tests) say `responseType:
'text'` still yields parsed JSON for JSON bodies.  The code's guard
`options.responseType !== 'text'` skips the re-parse exactly in that case,
so a body that `JSON.parse` accepts stays raw text, while the same body
under the default representation is parsed. -/
theorem c4_text_skips_parse :
    parseHost.parse "\x7b\"hello\":\"world\"\x7d" = some (.obj [("hello", .str "world")])
    ∧ finalData parseHost (some "text") "\x7b\"hello\":\"world\"\x7d"
      = some (.str "\x7b\"hello\":\"world\"\x7d")
    ∧ finalData parseHost none "\x7b\"hello\":\"world\"\x7d"
      = some (.obj [("hello", .str "world")])
    ∧ dispatch parseHost { responseType := some "text" } none none
        (.resolved { status := 200, ok := true, statusText := "OK", headers := [],
                     bodyText := "\x7b\"hello\":\"world\"\x7d" })
      = .resolved { status := 200, statusText := "OK", ok := true, headers := [],
                    data := some (.str "\x7b\"hello\":\"world\"\x7d") } :=
  ⟨rfl, rfl, rfl, rfl⟩

/-! ### Streaming progress layer (src/progress.js, src/stream.js)

Streams are modelled by their list of chunk byte-lengths; an instrumented
stream is modelled by the list of progress events it emits while fully
consumed.  The time-dependent `rate` / `estimated` fields (computed from
the speedometer and the wall clock) are omitted from the event model; no
claim mentions them.  The speedometers themselves are modelled separately
below with explicit timestamps. -/

/-- The deterministic fields of an axios-style progress event. -/
structure ProgressEvent where
  loaded : Nat
  total : Option Nat
  progress : Option ℚ
  bytes : Nat
  upload : Bool
  download : Bool
  lengthComputable : Bool
  deriving Repr

/-- `toAxiosProgress` (src/progress.js lines 79-96) = `createProgressEvent`
(src/stream.js lines 90-107): `lengthComputable` iff the total is positive,
`progress = loaded/total` when computable (unclamped), direction flags
mutually exclusive. -/
def toAxiosProgress (loaded total bytes : Nat) (isUpload : Bool) : ProgressEvent :=
  let lc : Bool := decide (0 < total)
  { loaded := loaded
    total := if lc then some total else none
    progress := if lc then some ((loaded : ℚ) / (total : ℚ)) else none
    bytes := bytes
    upload := isUpload
    download := !isUpload
    lengthComputable := lc }

/-- The transform/flush loop of `withProgress` (src/progress.js lines
114-146) = `wrapStreamWithProgress` (src/stream.js lines 124-153): events
are delayed by one chunk, cumulative bytes are advanced by the previous
chunk, and the flush emits the final pending chunk.  The local `percent`
computed and clamped at src/progress.js lines 120-121 is never passed to
the event constructor, so it does not appear here: the emitted ratio is
the unclamped `loaded/total` from `toAxiosProgress`. -/
def withProgressGo (isUpload : Bool) (totalBytes : Nat) :
    Option Nat → Nat → List Nat → List ProgressEvent
  | prev, transferred, [] =>
    match prev with
    | some p => [toAxiosProgress (transferred + p) totalBytes p isUpload]
    | none => []
  | prev, transferred, c :: rest =>
    match prev with
    | some p => toAxiosProgress (transferred + p) totalBytes p isUpload ::
        withProgressGo isUpload totalBytes (some c) (transferred + p) rest
    | none => withProgressGo isUpload totalBytes (some c) transferred rest

/-- All events emitted by an instrumented stream with the given chunk
sizes; for a nonempty stream the last list element is the flush event. -/
def withProgressEvents (totalBytes : Nat) (isUpload : Bool) (chunks : List Nat) :
    List ProgressEvent :=
  withProgressGo isUpload totalBytes none 0 chunks

/-- C7: the claim (and §4.5 of the spec) says pre-flush ratios are clamped
strictly below 1.0 and all ratios stay in [0,1].  The clamped `percent` is
dead code, so with total 1 and chunks [1,1] the non-terminal event carries
ratio 1.0 and the flush carries 2.0. -/
theorem c7_clamp_is_dead_code :
    withProgressEvents 1 false [1, 1]
      = [{ loaded := 1, total := some 1, progress := some 1, bytes := 1,
           upload := false, download := true, lengthComputable := true },
         { loaded := 2, total := some 1, progress := some 2, bytes := 1,
           upload := false, download := true, lengthComputable := true }]
    ∧ ¬ ((1 : ℚ) < 1) ∧ ¬ ((2 : ℚ) ≤ 1) := by
  refine ⟨?_, by norm_num, by norm_num⟩
  simp only [withProgressEvents, withProgressGo, toAxiosProgress]
  norm_num

/-- A raw HTTP response as used by the progress wrappers: status line,
headers, and the body stream (its chunk sizes), `none` for a null body. -/
structure HttpResponseM where
  status : Nat
  statusText : String
  headers : List (String × String)
  body : Option (List Nat)
  deriving Repr

/-- `Headers.get` (case-insensitive). -/
def headerGet (hs : List (String × String)) (name : String) : Option String :=
  (hs.find? (fun p => jsToLower p.1 == jsToLower name)).map (fun p => p.2)

/-- `Math.max(0, Number(response.headers.get('content-length')) || 0)`
(src/stream.js line 172): a missing, non-numeric or negative header yields
0 (fractional values, which no server sends, are outside the model). -/
def contentLengthTotal (hs : List (String × String)) : Nat :=
  match headerGet hs "content-length" with
  | none => 0
  | some s => match s.toNat? with | some v => v | none => 0

/-- `wrapResponseWithProgress` (src/stream.js lines 162-181) =
`streamResponse` (src/progress.js lines 155-174): no-op without body or
callback; a 204 is rebuilt with a null body and no instrumentation;
otherwise the body is instrumented with the content-length total.  The
second component is the list of progress events the returned response's
body emits when consumed. -/
def wrapResponseWithProgressM (r : HttpResponseM) (hasCallback : Bool) :
    HttpResponseM × List ProgressEvent :=
  if r.body = none ∨ hasCallback = false then (r, [])
  else if r.status = 204 then
    ({ status := r.status, statusText := r.statusText, headers := r.headers,
       body := none }, [])
  else
    ({ status := r.status, statusText := r.statusText, headers := r.headers,
       body := r.body },
      withProgressEvents (contentLengthTotal r.headers) false (r.body.getD []))

/-- C9: wrapping a 204 response with a download-progress callback yields a
response with a null body, the original status, status text and headers,
and the callback never fires. -/
theorem c9_204_null_body (r : HttpResponseM) (h204 : r.status = 204) :
    (wrapResponseWithProgressM r true).1.body = none
    ∧ (wrapResponseWithProgressM r true).1.status = r.status
    ∧ (wrapResponseWithProgressM r true).1.statusText = r.statusText
    ∧ (wrapResponseWithProgressM r true).1.headers = r.headers
    ∧ (wrapResponseWithProgressM r true).2 = [] := by
  by_cases hb : r.body = none
  · simp [wrapResponseWithProgressM, hb]
  · simp [wrapResponseWithProgressM, hb, h204]

/-- Witness for `c9_204_null_body` on a concrete 204 response carrying a
body stream. -/
theorem c9_204_null_body_witness :
    (wrapResponseWithProgressM
      { status := 204, statusText := "No Content",
        headers := [("content-length", "3")], body := some [3] } true).1.body = none
    ∧ (wrapResponseWithProgressM
      { status := 204, statusText := "No Content",
        headers := [("content-length", "3")], body := some [3] } true).2 = [] :=
  ⟨(c9_204_null_body
      { status := 204, statusText := "No Content",
        headers := [("content-length", "3")], body := some [3] } rfl).1,
    (c9_204_null_body
      { status := 204, statusText := "No Content",
        headers := [("content-length", "3")], body := some [3] } rfl).2.2.2.2⟩

/-! ### Speedometers (src/progress.js lines 41-68; src/stream.js lines
50-79 and 250-266)

Timestamps are naturals; `now - t` is truncated subtraction, which agrees
with JS number subtraction for the monotone clocks `Date.now()` produces.
The two parallel arrays `bytes`/`timestamps` of the ring-buffer version
are modelled as one array of pairs, unwritten slots holding `(0, 0)` (JS
`undefined` is falsy exactly like `0` in every read the code performs on
a live slot). -/

/-- JS `Math.round` on a non-negative rational. -/
def jsRound (q : ℚ) : Int := ⌊q + 1 / 2⌋

/-- State of the ring-buffer speedometer closure (`speedometer`,
src/progress.js lines 41-68 = `createSpeedometer`, src/stream.js lines
50-79): capacity, minimum elapsed time, slot array, head/tail indices and
the first-ever sample timestamp (0 = unset). -/
structure RingSpeedo where
  cap : Nat
  min : Nat
  slots : Nat → Nat × Nat
  head : Nat
  tail : Nat
  firstTS : Nat

/-- Fresh speedometer state. -/
def ringInit (cap min : Nat) : RingSpeedo :=
  { cap := cap, min := min, slots := fun _ => (0, 0), head := 0, tail := 0,
    firstTS := 0 }

/-- The byte-summing loop `while (i !== head) { bytesCount += bytes[i++];
i = i % samplesCount; }`, fuelled by the capacity (the loop always
terminates within `cap` steps since indices are reduced mod `cap`). -/
def ringSum (slots : Nat → Nat × Nat) (cap : Nat) : Nat → Nat → Nat → Nat
  | 0, _, _ => 0
  | fuel + 1, i, head =>
    if i = head then 0 else (slots i).1 + ringSum slots cap fuel ((i + 1) % cap) head

/-- One `push(chunkLength)` of the ring-buffer speedometer: record the
sample at `head`, sum the previously retained window, advance `head`
(evicting the oldest sample when the buffer is full), then apply the
minimum-time and zero-elapsed guards. -/
def ringPush (s : RingSpeedo) (chunk now : Nat) : RingSpeedo × Option Int :=
  let firstTS := if s.firstTS = 0 then now else s.firstTS
  let slots := fun j => if j = s.head then (chunk, now) else s.slots j
  let bytesCount := ringSum slots s.cap s.cap s.tail s.head
  let head := (s.head + 1) % s.cap
  let tail := if head = s.tail then (s.tail + 1) % s.cap else s.tail
  let ret : Option Int :=
    if now - firstTS < s.min then none
    else
      let t := (slots tail).2
      if t = 0 ∨ now - t = 0 then none
      else some (jsRound ((bytesCount : ℚ) * 1000 / ((now - t : Nat) : ℚ)))
  ({ s with slots := slots, head := head, tail := tail, firstTS := firstTS }, ret)

/-- Run a sequence of pushes, keeping the final state. -/
def ringRun (s : RingSpeedo) (samples : List (Nat × Nat)) : RingSpeedo :=
  samples.foldl (fun st p => (ringPush st p.1 p.2).1) s

/-- One push of the array-based speedometer (`createSpeedometer`,
src/stream.js lines 250-266): append the sample, shift old ones out,
then gate on the retained window's span and average over it (including
the just-pushed sample). -/
def arrayPush (samples minTime : Nat) (buf : List (Nat × Nat)) (bytes now : Nat) :
    List (Nat × Nat) × Option Int :=
  let buf1 := buf ++ [(bytes, now)]
  let buf2 := buf1.drop (buf1.length - samples)
  match buf2.head?, buf2.getLast? with
  | some first, some last =>
    if last.2 - first.2 < minTime then (buf2, none)
    else
      let totalBytes := (buf2.map Prod.fst).sum
      let duration := last.2 - first.2
      (buf2, if 0 < duration
        then some (jsRound ((totalBytes : ℚ) * 1000 / ((duration : Nat) : ℚ)))
        else none)
  | _, _ => (buf2, none)

/-- Run a sequence of pushes of the array-based speedometer, keeping the
buffer. -/
def arrayRun (samples minTime : Nat) (pushes : List (Nat × Nat)) : List (Nat × Nat) :=
  pushes.foldl (fun buf p => (arrayPush samples minTime buf p.1 p.2).1) []

/-- The last `n` elements of a list. -/
def takeRight (n : Nat) (l : List α) : List α := l.drop (l.length - n)

/-- Modelled from the spec: the return value C8 prescribes for a push
`(chunk, now)` after the samples `prev` — `undefined` while fewer than
`min` ms have elapsed since the very first sample, `undefined` when the
retained window's elapsed time is zero, else
`round(totalBytes * 1000 / elapsedMs)` where `totalBytes` sums the
retained samples other than the slot just written (the up-to `cap - 1`
samples preceding the push) and `elapsedMs` is `now` minus the oldest
retained sample's timestamp. -/
def speedoClaimFormula (cap min : Nat) (prev : List (Nat × Nat)) (chunk now : Nat) :
    Option Int :=
  let all := prev ++ [(chunk, now)]
  let firstTS := ((all.head?).map Prod.snd).getD 0
  if now - firstTS < min then none
  else
    let retained := takeRight (cap - 1) all
    let oldest := ((retained.head?).map Prod.snd).getD 0
    let windowBytes := ((takeRight (cap - 1) prev).map Prod.fst).sum
    if now - oldest = 0 then none
    else some (jsRound ((windowBytes : ℚ) * 1000 / ((now - oldest : Nat) : ℚ)))

/-! ### Ring-buffer speedometer refinement -/

theorem mod_ne_of_between (i n cap : Nat) (h1 : i < n) (h2 : n < i + cap) :
    i % cap ≠ n % cap := by
  intro h
  have hdvd : cap ∣ n - i := (Nat.modEq_iff_dvd' (Nat.le_of_lt h1)).mp h
  have := Nat.le_of_dvd (by omega) hdvd
  omega

theorem add_one_mod (cap x : Nat) (hcap : 2 ≤ cap) :
    (x + 1) % cap = (x % cap + 1) % cap := by
  conv_lhs => rw [Nat.add_mod]
  rw [Nat.mod_eq_of_lt (show 1 < cap by omega)]

theorem ringSum_eval (slots : Nat → Nat × Nat) (cap : Nat) (hcap : 2 ≤ cap) :
    ∀ (len fuel a : Nat), len ≤ cap - 1 → len ≤ fuel →
    ringSum slots cap fuel (a % cap) ((a + len) % cap)
      = ((List.range len).map (fun j => (slots ((a + j) % cap)).1)).sum := by
  intro len
  induction len with
  | zero =>
    intro fuel a _ _
    cases fuel <;> simp [ringSum]
  | succ len ih =>
    intro fuel a hlen hfuel
    obtain ⟨f, rfl⟩ : ∃ f, fuel = f + 1 := ⟨fuel - 1, by omega⟩
    rw [ringSum]
    have hne : a % cap ≠ (a + (len + 1)) % cap :=
      mod_ne_of_between a (a + (len + 1)) cap (by omega) (by omega)
    rw [if_neg hne, ← add_one_mod cap a hcap]
    rw [show a + (len + 1) = (a + 1) + len by omega]
    rw [ih f (a + 1) (by omega) (by omega)]
    rw [List.range_succ_eq_map]
    simp only [List.map_cons, List.sum_cons, List.map_map, Function.comp_def, Nat.add_zero]
    congr 1
    refine congrArg List.sum (List.map_congr_left ?_)
    intro j _
    have hj : a + 1 + j = a + j.succ := by omega
    rw [hj]

theorem sum_drop_map_aux (l : List (Nat × Nat)) :
    ∀ (m a : Nat), m = l.length - a →
    ((List.range m).map (fun j => (l.getD (a + j) (0, 0)).1)).sum
      = ((l.drop a).map Prod.fst).sum := by
  intro m
  induction m with
  | zero =>
    intro a hm
    have hle : l.length ≤ a := by omega
    simp [List.drop_eq_nil_of_le hle]
  | succ m ih =>
    intro a hm
    have ha : a < l.length := by omega
    rw [List.range_succ_eq_map, List.drop_eq_getElem_cons ha]
    simp only [List.map_cons, List.sum_cons, List.map_map, Function.comp_def, Nat.add_zero]
    congr 1
    · exact congrArg Prod.fst (List.getD_eq_getElem l (0, 0) ha)
    · rw [← ih (a + 1) (by omega)]
      refine congrArg List.sum (List.map_congr_left ?_)
      intro j _
      have hj : a + j.succ = a + 1 + j := by omega
      rw [hj]

/-- The state invariant of the ring-buffer speedometer after the pushes
`prev`: head and tail are determined by the push count, `firstTS` is the
first sample's timestamp, and the slot for each of the last `cap` sample
indices holds that sample. -/
structure RingInv (cap minT : Nat) (prev : List (Nat × Nat)) (s : RingSpeedo) : Prop where
  hcap : s.cap = cap
  hmin : s.min = minT
  hhead : s.head = prev.length % cap
  htail : s.tail = (prev.length - Nat.min prev.length (cap - 1)) % cap
  hfirst : s.firstTS = ((prev.head?).map Prod.snd).getD 0
  hslots : ∀ i, i < prev.length → prev.length ≤ i + cap →
    s.slots (i % cap) = prev.getD i (0, 0)

theorem ringInv_init (cap minT : Nat) : RingInv cap minT [] (ringInit cap minT) := by
  constructor <;> simp [ringInit]

theorem nat_min_eq_ite (a b : Nat) : Nat.min a b = if a ≤ b then a else b := by
  rw [show Nat.min a b = min a b from rfl, Nat.min_def]

theorem tail_step (cap n : Nat) (hcap : 2 ≤ cap) :
    (if (n % cap + 1) % cap = (n - Nat.min n (cap - 1)) % cap
      then ((n - Nat.min n (cap - 1)) % cap + 1) % cap
      else (n - Nat.min n (cap - 1)) % cap)
    = ((n + 1) - Nat.min (n + 1) (cap - 1)) % cap := by
  rcases Nat.lt_trichotomy (n + 1) cap with hlt | heq | hgt
  · have h1 : n - Nat.min n (cap - 1) = 0 := by rw [nat_min_eq_ite]; split <;> omega
    have h2 : (n + 1) - Nat.min (n + 1) (cap - 1) = 0 := by rw [nat_min_eq_ite]; split <;> omega
    have h4 : (n % cap + 1) % cap = n + 1 := by
      rw [← add_one_mod cap n hcap]
      exact Nat.mod_eq_of_lt hlt
    rw [h1, h2, h4]
    simp only [Nat.zero_mod]
    rw [if_neg (by omega)]
  · have h1 : n - Nat.min n (cap - 1) = 0 := by rw [nat_min_eq_ite]; split <;> omega
    have h2 : (n + 1) - Nat.min (n + 1) (cap - 1) = 1 := by rw [nat_min_eq_ite]; split <;> omega
    have h4 : (n % cap + 1) % cap = 0 := by
      rw [← add_one_mod cap n hcap, heq]
      simp
    rw [h1, h2, h4]
    simp [Nat.mod_eq_of_lt (show 1 < cap by omega)]
  · have hmin1 : Nat.min n (cap - 1) = cap - 1 := by rw [nat_min_eq_ite]; split <;> omega
    have hmin2 : Nat.min (n + 1) (cap - 1) = cap - 1 := by rw [nat_min_eq_ite]; split <;> omega
    rw [hmin1, hmin2]
    have hkey : (n - (cap - 1)) % cap = (n + 1) % cap := by
      calc (n - (cap - 1)) % cap = (n - (cap - 1) + cap) % cap :=
            (Nat.add_mod_right _ _).symm
        _ = (n + 1) % cap := by rw [show n - (cap - 1) + cap = n + 1 by omega]
    have hcond : (n % cap + 1) % cap = (n - (cap - 1)) % cap := by
      rw [hkey, ← add_one_mod cap n hcap]
    rw [if_pos hcond, hkey, ← add_one_mod cap (n + 1) hcap]
    calc (n + 1 + 1) % cap = ((n + 1) - (cap - 1) + cap) % cap := by
          rw [show (n + 1) - (cap - 1) + cap = n + 1 + 1 by omega]
      _ = ((n + 1) - (cap - 1)) % cap := Nat.add_mod_right _ _

theorem ringInv_push (cap minT : Nat) (hcap : 2 ≤ cap) (prev : List (Nat × Nat))
    (s : RingSpeedo) (b t : Nat)
    (hpos : ∀ p ∈ prev, 0 < p.2)
    (hinv : RingInv cap minT prev s) :
    RingInv cap minT (prev ++ [(b, t)]) (ringPush s b t).1 := by
  obtain ⟨hc, hmn, hh, ht, hf, hs⟩ := hinv
  have hlen : (prev ++ [(b, t)]).length = prev.length + 1 := by simp
  constructor
  · simp [ringPush, hc]
  · simp [ringPush, hmn]
  · simp only [ringPush]
    rw [hlen, hh, hc, add_one_mod cap prev.length hcap]
  · simp only [ringPush]
    rw [hlen, hh, ht, hc]
    exact tail_step cap prev.length hcap
  · simp only [ringPush]
    cases prev with
    | nil =>
      simp only [List.head?_nil, Option.map_none, Option.getD_none] at hf
      rw [hf]
      simp
    | cons p ps =>
      have hp : p.2 ≠ 0 := (hpos p (List.mem_cons_self p ps)).ne'
      rw [hf]
      show (if p.2 = 0 then t else p.2)
        = (Option.map Prod.snd ((p :: ps ++ [(b, t)]).head?)).getD 0
      rw [if_neg hp]
      rfl
  · intro i hi hcapi
    rw [hlen] at hi hcapi
    simp only [ringPush]
    by_cases hin : i = prev.length
    · subst hin
      rw [hh, if_pos rfl]
      have hr : (prev ++ [(b, t)]).getD prev.length (0, 0) = (b, t) := by
        simp [List.getD, List.getElem?_append_right (Nat.le_refl prev.length)]
      exact hr.symm
    · have hi' : i < prev.length := by omega
      have hne : i % cap ≠ prev.length % cap :=
        mod_ne_of_between i prev.length cap hi' (by omega)
      rw [hh, if_neg hne]
      have hgd : (prev ++ [(b, t)]).getD i (0, 0) = prev.getD i (0, 0) := by
        simp [List.getD, List.getElem?_append, hi']
      rw [hgd]
      exact hs i hi' (by omega)

theorem ringInv_run (cap minT : Nat) (hcap : 2 ≤ cap) :
    ∀ (prev : List (Nat × Nat)), (∀ p ∈ prev, 0 < p.2) →
    RingInv cap minT prev (ringRun (ringInit cap minT) prev) := by
  intro prev
  induction prev using List.reverseRecOn with
  | nil => intro _; exact ringInv_init cap minT
  | append_singleton l x ih =>
    intro hpos
    have hpl : ∀ p ∈ l, 0 < p.2 := fun p hp => hpos p (List.mem_append_left _ hp)
    have hrun : ringRun (ringInit cap minT) (l ++ [x]) =
        (ringPush (ringRun (ringInit cap minT) l) x.1 x.2).1 := by
      simp [ringRun, List.foldl_append]
    rw [hrun]
    have := ringInv_push cap minT hcap l (ringRun (ringInit cap minT) l) x.1 x.2 hpl (ih hpl)
    simpa using this

/-- C8, amended: the stated formula is exactly what the ring-buffer
speedometer (src/progress.js lines 41-68, src/stream.js lines 50-79)
computes, for every push history with positive timestamps and any capacity
of at least 2; the array-based `createSpeedometer` (src/stream.js lines
250-266) deviates from it (see the counterexample). -/
theorem c8_amended (cap minT : Nat) (hcap : 2 ≤ cap) (prev : List (Nat × Nat))
    (chunk now : Nat) (hpos : ∀ p ∈ prev ++ [(chunk, now)], 0 < p.2) :
    (ringPush (ringRun (ringInit cap minT) prev) chunk now).2
      = speedoClaimFormula cap minT prev chunk now := by
  have hposPrev : ∀ p ∈ prev, 0 < p.2 := fun p hp => hpos p (List.mem_append_left _ hp)
  have hinv := ringInv_run cap minT hcap prev hposPrev
  have hinv' := ringInv_push cap minT hcap prev _ chunk now hposPrev hinv
  obtain ⟨hc, hmn, hh, ht, hf, _⟩ := hinv
  have hf' := hinv'.hfirst
  have ht' := hinv'.htail
  have hsl := hinv'.hslots
  simp only [ringPush] at hf' ht' hsl
  simp only [List.length_append, List.length_cons, List.length_nil] at ht' hsl
  simp only [ringPush, speedoClaimFormula]
  -- abbreviations
  set s := ringRun (ringInit cap minT) prev with hsdef
  set n := prev.length with hn
  set all := prev ++ [(chunk, now)] with hall
  have hlenall : all.length = n + 1 := by simp [hall, hn]
  -- window arithmetic
  set d := Nat.min n (cap - 1) with hd
  set d2 := Nat.min (n + 1) (cap - 1) with hd2
  have hdle : d ≤ n := by rw [hd, nat_min_eq_ite]; split <;> omega
  have hdcap : d ≤ cap - 1 := by rw [hd, nat_min_eq_ite]; split <;> omega
  have hd2ge : 1 ≤ d2 := by rw [hd2, nat_min_eq_ite]; split <;> omega
  have hd2cap : d2 ≤ cap - 1 := by rw [hd2, nat_min_eq_ite]; split <;> omega
  -- the oldest retained index after the push
  have histar_lt : n + 1 - d2 < n + 1 := by omega
  have histar_cap : n + 1 ≤ (n + 1 - d2) + cap := by omega
  -- rewrite the first-sample timestamp
  rw [hf', hmn]
  -- rewrite the post-push tail and the slot it addresses
  rw [ht']
  rw [hsl (n + 1 - d2) (by omega) (by omega)]
  have hdcases : d = n ∨ d = cap - 1 := by
    rw [hd, nat_min_eq_ite]
    split
    · exact Or.inl rfl
    · exact Or.inr rfl
  have hd2cases : d2 = n + 1 ∨ d2 = cap - 1 := by
    rw [hd2, nat_min_eq_ite]
    split
    · exact Or.inl rfl
    · exact Or.inr rfl
  -- the oldest retained sample on the claim side is the slot the code reads
  have hgetlt : n + 1 - d2 < all.length := by omega
  have hdropidx : takeRight (cap - 1) all = all.drop (n + 1 - d2) := by
    rw [takeRight, hlenall]
    congr 1
    rcases hd2cases with h | h <;> omega
  have holdest : (Option.map Prod.snd (takeRight (cap - 1) all).head?).getD 0
      = (all.getD (n + 1 - d2) (0, 0)).2 := by
    rw [hdropidx, List.head?_drop, List.getElem?_eq_getElem hgetlt,
      List.getD_eq_getElem all (0, 0) hgetlt]
    rfl
  have hmem : all.getD (n + 1 - d2) (0, 0) ∈ all := by
    rw [List.getD_eq_getElem all (0, 0) hgetlt]
    exact List.getElem_mem hgetlt
  have ht0 : ¬ (all.getD (n + 1 - d2) (0, 0)).2 = 0 := (hpos _ hmem).ne'
  rw [hh] at hsl
  have ha : n % cap = ((n - d) + d) % cap := by
    congr 1
    omega
  rw [ha] at hsl
  have hsum : ringSum (fun j => if j = s.head then (chunk, now) else s.slots j)
      s.cap s.cap s.tail s.head
      = (List.map Prod.fst (takeRight (cap - 1) prev)).sum := by
    rw [hc, ht, hh, ha]
    rw [ringSum_eval (fun j => if j = ((n - d) + d) % cap then (chunk, now) else s.slots j)
      cap hcap d cap (n - d) hdcap (by omega)]
    have hstep : ∀ j ∈ List.range d,
        ((fun jj => if jj = ((n - d) + d) % cap then (chunk, now) else s.slots jj)
            (((n - d) + j) % cap)).1
          = (prev.getD ((n - d) + j) (0, 0)).1 := by
      intro j hj
      rw [List.mem_range] at hj
      have h1 := hsl ((n - d) + j) (by omega) (by rcases hdcases with h | h <;> omega)
      show (if ((n - d) + j) % cap = ((n - d) + d) % cap then (chunk, now)
          else s.slots (((n - d) + j) % cap)).1 = (prev.getD ((n - d) + j) (0, 0)).1
      rw [h1]
      have hlt : (n - d) + j < prev.length := by omega
      have hgd : all.getD ((n - d) + j) (0, 0) = prev.getD ((n - d) + j) (0, 0) := by
        rw [hall]
        simp [List.getD, List.getElem?_append, hlt]
      rw [hgd]
    rw [List.map_congr_left hstep]
    rw [sum_drop_map_aux prev d (n - d) (by omega)]
    rw [takeRight]
    have hidx : prev.length - (cap - 1) = n - d := by rcases hdcases with h | h <;> omega
    rw [hidx]
  rw [holdest, hsum]
  simp only [ht0, false_or]


/-- Witness for `c8_amended` at a concrete push history, with the common
value evaluated: 5 bytes at t=100 then 7 bytes at t=1500 under
`speedometer(10, 1000)` reports `round(5 * 1000 / 1400) = 4`. -/
theorem c8_amended_witness :
    (ringPush (ringRun (ringInit 10 1000) [(5, 100)]) 7 1500).2
      = speedoClaimFormula 10 1000 [(5, 100)] 7 1500
    ∧ speedoClaimFormula 10 1000 [(5, 100)] 7 1500 = some 4 := by
  constructor
  · exact c8_amended 10 1000 (by omega) [(5, 100)] 7 1500 (by decide)
  · simp [speedoClaimFormula, takeRight, jsRound]
    norm_num

/-- C8, as stated, is false of the array-based speedometer
(`createSpeedometer`, src/stream.js lines 250-266): its second push sums
the retained samples including the just-pushed one (12 bytes over 400 ms,
reporting 30), while the claim's formula excludes the newest sample and
yields `round(5 * 1000 / 400) = 13`. -/
theorem c8_counterexample :
    (arrayPush 10 300 (arrayRun 10 300 [(5, 100)]) 7 500).2 = some 30
    ∧ speedoClaimFormula 10 300 [(5, 100)] 7 500 = some 13
    ∧ some (30 : Int) ≠ some (13 : Int) := by
  refine ⟨?_, ?_, by decide⟩
  · simp [arrayRun, arrayPush, jsRound]
    norm_num
  · simp [speedoClaimFormula, takeRight, jsRound]
    norm_num
